import Mathlib

/-!
Shallow embedding of the `bleeps` modular audio-synthesis engine
(`src/bleeps.py`) and verification of its specification claims.

Samples and time points are modelled as real numbers (`ℝ`); numpy arrays
become `List ℝ`, vectorised elementwise operations become `List.map` /
`List.zipWith`.  A connected modulation-source module is modelled by its
per-time-point sample function `ℝ → ℝ` (an unconnected input is `none`);
block-level input modules (filter, mixer, audio output) are modelled as
block functions `List ℝ → List ℝ`.  The unused bookkeeping fields of the
Python base class `Module` (`inputs`, `output`) are omitted; the shared
`sample_rate` field is kept where a method reads it.
-/

noncomputable section

namespace Bleeps

/-- `FilterType` enum from the source. -/
inductive FilterType where
  | LOWPASS
  | HIGHPASS
  | BANDPASS
deriving DecidableEq

/-- `SineOscillator.__init__`: `base_frequency`, `base_amplitude`, optional
frequency/amplitude modulation inputs (`None` when unconnected). -/
structure SineOscillator where
  base_frequency : ℝ
  base_amplitude : ℝ
  freq_mod_input : Option (ℝ → ℝ)
  amp_mod_input : Option (ℝ → ℝ)

/-- Per-time-point body of `SineOscillator.process`: modulation defaults
`freq_mod = 1.0`, `amp_mod = 1.0` when unconnected, then
`amplitude * sin(2π * frequency * t)` with
`frequency = base_frequency * (1 + freq_mod)`,
`amplitude = base_amplitude * amp_mod`. -/
def SineOscillator.sample (osc : SineOscillator) (t : ℝ) : ℝ :=
  let freq_mod : ℝ := match osc.freq_mod_input with
    | some m => m t
    | none => 1
  let amp_mod : ℝ := match osc.amp_mod_input with
    | some m => m t
    | none => 1
  let frequency := osc.base_frequency * (1 + freq_mod)
  let amplitude := osc.base_amplitude * amp_mod
  amplitude * Real.sin (2 * Real.pi * frequency * t)

/-- `SineOscillator.process` over a time array (numpy vectorisation is
elementwise). -/
def SineOscillator.process (osc : SineOscillator) (time_array : List ℝ) : List ℝ :=
  time_array.map osc.sample

/-- numpy `np.mod` on reals: `x - y * ⌊x / y⌋`. -/
def npMod (x y : ℝ) : ℝ := x - y * ⌊x / y⌋

/-- numpy `np.clip(x, lo, hi) = min(hi, max(lo, x))`. -/
def npClip (x lo hi : ℝ) : ℝ := min hi (max lo x)

/-- `SquareOscillator.__init__` fields. -/
structure SquareOscillator where
  base_frequency : ℝ
  base_amplitude : ℝ
  duty_cycle : ℝ
  freq_mod_input : Option (ℝ → ℝ)
  amp_mod_input : Option (ℝ → ℝ)
  duty_mod_input : Option (ℝ → ℝ)

/-- `SquareOscillator.__init__(frequency, amplitude, duty_cycle)`: stores
`duty_cycle` clamped by `max(0.0, min(1.0, duty_cycle))`, all modulation
inputs unconnected. -/
def SquareOscillator.init (frequency amplitude duty_cycle : ℝ) : SquareOscillator :=
  { base_frequency := frequency
    base_amplitude := amplitude
    duty_cycle := max 0 (min 1 duty_cycle)
    freq_mod_input := none
    amp_mod_input := none
    duty_mod_input := none }

/-- The `duty = np.clip(self.duty_cycle + duty_mod, 0.0, 1.0)` line of
`SquareOscillator.process` (duty modulation defaults to `0.0`). -/
def SquareOscillator.effectiveDuty (osc : SquareOscillator) (t : ℝ) : ℝ :=
  let duty_mod : ℝ := match osc.duty_mod_input with
    | some m => m t
    | none => 0
  npClip (osc.duty_cycle + duty_mod) 0 1

/-- Per-time-point body of `SquareOscillator.process`. -/
def SquareOscillator.sample (osc : SquareOscillator) (t : ℝ) : ℝ :=
  let freq_mod : ℝ := match osc.freq_mod_input with
    | some m => m t
    | none => 1
  let amp_mod : ℝ := match osc.amp_mod_input with
    | some m => m t
    | none => 1
  let frequency := osc.base_frequency * (1 + freq_mod)
  let amplitude := osc.base_amplitude * amp_mod
  let duty := osc.effectiveDuty t
  let phase := 2 * Real.pi * frequency * t
  let square : ℝ := if npMod phase (2 * Real.pi) / (2 * Real.pi) < duty then 1 else -1
  amplitude * square

/-- `SquareOscillator.process` over a time array. -/
def SquareOscillator.process (osc : SquareOscillator) (time_array : List ℝ) : List ℝ :=
  time_array.map osc.sample

/-- `TriangleOscillator.__init__` fields. -/
structure TriangleOscillator where
  base_frequency : ℝ
  base_amplitude : ℝ
  freq_mod_input : Option (ℝ → ℝ)
  amp_mod_input : Option (ℝ → ℝ)

/-- Per-time-point body of `TriangleOscillator.process`:
`(2/π) * arcsin(sin(2π * frequency * t))`. -/
def TriangleOscillator.sample (osc : TriangleOscillator) (t : ℝ) : ℝ :=
  let freq_mod : ℝ := match osc.freq_mod_input with
    | some m => m t
    | none => 1
  let amp_mod : ℝ := match osc.amp_mod_input with
    | some m => m t
    | none => 1
  let frequency := osc.base_frequency * (1 + freq_mod)
  let amplitude := osc.base_amplitude * amp_mod
  let phase := 2 * Real.pi * frequency * t
  amplitude * ((2 / Real.pi) * Real.arcsin (Real.sin phase))

/-- `TriangleOscillator.process` over a time array. -/
def TriangleOscillator.process (osc : TriangleOscillator) (time_array : List ℝ) : List ℝ :=
  time_array.map osc.sample

/-- One `process` call viewed as a state transition: the Python method reads
`self` and performs no assignment to it, so the post-state is the unchanged
oscillator. -/
def SineOscillator.stepCall (osc : SineOscillator) (t : List ℝ) :
    List ℝ × SineOscillator :=
  (osc.process t, osc)

/-- One `process` call of `SquareOscillator` as a state transition. -/
def SquareOscillator.stepCall (osc : SquareOscillator) (t : List ℝ) :
    List ℝ × SquareOscillator :=
  (osc.process t, osc)

/-- One `process` call of `TriangleOscillator` as a state transition. -/
def TriangleOscillator.stepCall (osc : TriangleOscillator) (t : List ℝ) :
    List ℝ × TriangleOscillator :=
  (osc.process t, osc)

/-- Two successive calls of a stateful block process on the same time array:
the first output, and the second output computed from the post-state of the
first call. -/
def runTwice {σ : Type} (step : σ → List ℝ → List ℝ × σ) (s : σ) (t : List ℝ) :
    List ℝ × List ℝ :=
  ((step s t).1, (step (step s t).2 t).1)

/-- `AudioOutput.__init__`: sample rate 44100 and an optional root module,
modelled by its block sample function. -/
structure AudioOutput where
  sample_rate : ℕ
  input_module : Option (List ℝ → List ℝ)

/-- The time array built by the streaming callback:
`np.arange(frames) / sample_rate + current_time`. -/
def callbackTimeArray (current_time : ℝ) (frames : ℕ) (sample_rate : ℝ) : List ℝ :=
  (List.range frames).map fun i : ℕ => (i : ℝ) / sample_rate + current_time

/-- `self.current_time += frames / self.sample_rate`, the cursor advance
performed at the end of each streaming callback. -/
def advanceCursor (current_time : ℝ) (frames : ℕ) (sample_rate : ℝ) : ℝ :=
  current_time + (frames : ℝ) / sample_rate

/-- The bounded-render time array:
`np.arange(int(duration * sample_rate)) / sample_rate`.  Python `int()`
truncates toward zero; combined with `np.arange` returning an empty range for
non-positive arguments this coincides with `Int.toNat ∘ Int.floor` on every
input. -/
def boundedTimeArray (duration : ℝ) (sample_rate : ℕ) : List ℝ :=
  (List.range (Int.toNat ⌊duration * (sample_rate : ℝ)⌋)).map
    fun i : ℕ => (i : ℝ) / (sample_rate : ℝ)

/-- Result of a successful `AudioOutput.start`: either an opened stream whose
callback cursor starts at `current_time = 0`, or the finished bounded render
with the samples handed to the device. -/
inductive StartResult where
  | streaming (initial_time : ℝ)
  | bounded (samples : List ℝ)

/-- `alpha = dt / (1 / (2 * π * cutoff_freq) + dt)` with `dt = 1 / sample_rate`,
from `Filter.process`. -/
def filterAlpha (cutoff_freq sample_rate : ℝ) : ℝ :=
  let dt := 1 / sample_rate
  dt / (1 / (2 * Real.pi * cutoff_freq) + dt)

/-- The lowpass recurrence `filtered[i] = alpha * x[i] + (1 - alpha) * filtered[i-1]`
for `i ≥ 1`, carrying the previous output sample. -/
def lowpassLoop (alpha prev : ℝ) : List ℝ → List ℝ
  | [] => []
  | x :: xs =>
    (alpha * x + (1 - alpha) * prev) ::
      lowpassLoop alpha (alpha * x + (1 - alpha) * prev) xs

/-- The highpass recurrence
`filtered[i] = alpha * (filtered[i-1] + x[i] - x[i-1])` for `i ≥ 1`, carrying
the previous output and input samples. -/
def highpassLoop (alpha prevOut prevIn : ℝ) : List ℝ → List ℝ
  | [] => []
  | x :: xs =>
    (alpha * (prevOut + x - prevIn)) ::
      highpassLoop alpha (alpha * (prevOut + x - prevIn)) x xs

/-- The body of `Filter.process` on the input block: `filtered` starts as
zeros with `filtered[0] = input[0]`, then the recurrence of the selected kind
fills indices `1..`; for `BANDPASS` neither branch runs, so the zeros (after
the first sample) are returned unchanged.  The recursion state is local to the
call: nothing is read from or written to the filter object. -/
def filterCore (filter_type : FilterType) (cutoff_freq sample_rate : ℝ)
    (input_signal : List ℝ) : List ℝ :=
  match input_signal with
  | [] => []
  | x0 :: rest =>
    let alpha := filterAlpha cutoff_freq sample_rate
    match filter_type with
    | FilterType.LOWPASS => x0 :: lowpassLoop alpha x0 rest
    | FilterType.HIGHPASS => x0 :: highpassLoop alpha x0 x0 rest
    | FilterType.BANDPASS => x0 :: List.replicate rest.length 0

/-- `Filter.__init__`: kind, cutoff, optional input module, unused `resonance`,
and the `sample_rate` inherited from `Module`. -/
structure Filter where
  filter_type : FilterType
  cutoff_freq : ℝ
  input_module : Option (List ℝ → List ℝ)
  resonance : ℝ
  sample_rate : ℝ

/-- `Filter.process`: zeros when no input module, else the recurrence over the
pulled input block. -/
def Filter.process (f : Filter) (time_array : List ℝ) : List ℝ :=
  match f.input_module with
  | none => List.replicate time_array.length 0
  | some m => filterCore f.filter_type f.cutoff_freq f.sample_rate (m time_array)

/-- A child module of a `Mixer` (and retuning target of the `Sequencer`): one
of the three concrete oscillator classes, or any other module modelled by its
block sample function. -/
inductive ChildModule where
  | sine (o : SineOscillator)
  | square (o : SquareOscillator)
  | triangle (o : TriangleOscillator)
  | other (p : List ℝ → List ℝ)

/-- Dynamic dispatch of `process` on a child module. -/
def ChildModule.process : ChildModule → List ℝ → List ℝ
  | ChildModule.sine o, t => o.process t
  | ChildModule.square o, t => o.process t
  | ChildModule.triangle o, t => o.process t
  | ChildModule.other p, t => p t

/-- The `module.base_frequency = frequency` assignment the `Sequencer`
performs on a child that `isinstance`-matches one of the three oscillator
classes; any other module is left untouched. -/
def ChildModule.setBaseFrequency : ChildModule → ℝ → ChildModule
  | ChildModule.sine o, f => ChildModule.sine { o with base_frequency := f }
  | ChildModule.square o, f => ChildModule.square { o with base_frequency := f }
  | ChildModule.triangle o, f => ChildModule.triangle { o with base_frequency := f }
  | ChildModule.other p, _ => ChildModule.other p

/-- `Mixer.__init__`: the ordered `(module, gain)` list. -/
structure Mixer where
  input_modules : List (ChildModule × ℝ)

/-- The accumulation loop of `Mixer.process`:
`output = zeros; for module, gain: output += gain * module.process(t)`. -/
def mixSum (input_modules : List (ChildModule × ℝ)) (time_array : List ℝ) : List ℝ :=
  input_modules.foldl
    (fun output mg => List.zipWith (fun a v => a + mg.2 * v) output (mg.1.process time_array))
    (List.replicate time_array.length 0)

/-- `np.max(np.abs(output))` over a block (0 for the empty block, on which the
numpy original would raise instead). -/
def peakAbs (l : List ℝ) : ℝ := l.foldr (fun x m => max |x| m) 0

/-- `Mixer.process`: zeros when no inputs; otherwise the gain-weighted sum,
divided by its peak absolute value when that peak exceeds `1.0`. -/
def Mixer.process (M : Mixer) (time_array : List ℝ) : List ℝ :=
  match M.input_modules with
  | [] => List.replicate time_array.length 0
  | _ :: _ =>
    let output := mixSum M.input_modules time_array
    let max_val := peakAbs output
    if 1 < max_val then output.map (fun x => x / max_val) else output

/-- `AudioOutput.start(duration)`: raises `ValueError` when no input module is
connected (modelled as `Except.error`, returned before any device
interaction); `duration == 0` starts the indefinite stream, any other value
renders `int(duration * sample_rate)` frames and plays them. -/
def AudioOutput.start (a : AudioOutput) (duration : ℝ) : Except String StartResult :=
  match a.input_module with
  | none => Except.error "No input module connected"
  | some m =>
    if duration = 0 then
      Except.ok (StartResult.streaming 0)
    else
      Except.ok (StartResult.bounded (m (boundedTimeArray duration a.sample_rate)))

/-- A module the `Sequencer` can drive: `isinstance` against the three
oscillator classes selects direct retuning, a `Mixer` (the only class with an
`input_modules` attribute) gets all its oscillator children retuned, and any
other module is processed without retuning. -/
inductive TargetModule where
  | sine (o : SineOscillator)
  | square (o : SquareOscillator)
  | triangle (o : TriangleOscillator)
  | mixer (m : Mixer)
  | other (p : List ℝ → List ℝ)

/-- The frequency-setting block of `Sequencer.process`: assign
`base_frequency` directly on an oscillator target, retune every oscillator
child of a `Mixer` target, and leave any other target unchanged. -/
def TargetModule.setSequenceFrequency : TargetModule → ℝ → TargetModule
  | TargetModule.sine o, f => TargetModule.sine { o with base_frequency := f }
  | TargetModule.square o, f => TargetModule.square { o with base_frequency := f }
  | TargetModule.triangle o, f => TargetModule.triangle { o with base_frequency := f }
  | TargetModule.mixer m, f =>
    TargetModule.mixer ⟨m.input_modules.map fun mg => (mg.1.setBaseFrequency f, mg.2)⟩
  | TargetModule.other p, _ => TargetModule.other p

/-- Dynamic dispatch of `process` on the sequencer's target. -/
def TargetModule.process : TargetModule → List ℝ → List ℝ
  | TargetModule.sine o, t => o.process t
  | TargetModule.square o, t => o.process t
  | TargetModule.triangle o, t => o.process t
  | TargetModule.mixer m, t => m.process t
  | TargetModule.other p, t => p t

/-- `Sequencer.__init__(bpm)`: `step_duration = 60.0 / bpm`, empty sequence,
no output module. -/
structure Sequencer where
  bpm : ℝ
  step_duration : ℝ
  sequence : List (ℝ × ℝ)
  output_module : Option TargetModule

/-- `Sequencer.init` mirrors the constructor. -/
def Sequencer.init (bpm : ℝ) : Sequencer :=
  { bpm := bpm, step_duration := 60 / bpm, sequence := [], output_module := none }

/-- The numpy fancy-assignment `output[note_indices] = note_output`: walk the
output block and the time array in parallel, replacing the entries whose time
point lies in the half-open note window `[note_start, note_end)` by the next
value of `vals` (entries outside the window, and any positions left after
`vals` is exhausted, keep their old value). -/
def scatterWindow : List ℝ → List ℝ → ℝ → ℝ → List ℝ → List ℝ
  | [], _, _, _, _ => []
  | o :: os, [], _, _, _ => o :: os
  | o :: os, x :: xs, note_start, note_end, vals =>
    if note_start ≤ x ∧ x < note_end then
      vals.headD o :: scatterWindow os xs note_start note_end vals.tail
    else
      o :: scatterWindow os xs note_start note_end vals

/-- The per-note loop of `Sequencer.process`: for each `(frequency, duration)`
step, select the time points in `[current_time, current_time + note_duration)`;
when the selection is non-empty, retune the target, process it over the
selection, apply the decaying envelope `exp(-(t - note_start) / 0.1)`, and
scatter the result into the output at the selected positions; in every case
advance `current_time` by the note duration.  The (possibly retuned) target is
threaded through, modelling the in-place mutation of `self.output_module`. -/
def seqLoop (step_duration : ℝ) (t : List ℝ) :
    List (ℝ × ℝ) → ℝ → TargetModule → List ℝ → List ℝ × TargetModule
  | [], _, target, output => (output, target)
  | (frequency, duration) :: rest, current_time, target, output =>
    let note_duration := duration * step_duration
    let note_start := current_time
    let note_end := current_time + note_duration
    let sub := t.filter fun x => decide (note_start ≤ x ∧ x < note_end)
    if sub.isEmpty then
      seqLoop step_duration t rest (current_time + note_duration) target output
    else
      let target' := target.setSequenceFrequency frequency
      let note_output := target'.process sub
      let enveloped := List.zipWith
        (fun v x => v * Real.exp (-(x - note_start) / 0.1)) note_output sub
      seqLoop step_duration t rest (current_time + note_duration) target'
        (scatterWindow output t note_start note_end enveloped)

/-- `Sequencer.process`: zeros when no output module; otherwise the per-note
loop starting from a zero output block, `current_time = 0` and the attached
target.  (The `total_duration` the source computes is never read afterwards
and is omitted.)  The returned `Sequencer` carries the mutated target. -/
def Sequencer.process (s : Sequencer) (t : List ℝ) : List ℝ × Sequencer :=
  match s.output_module with
  | none => (List.replicate t.length 0, s)
  | some target =>
    let r := seqLoop s.step_duration t s.sequence 0 target (List.replicate t.length 0)
    (r.1, { s with output_module := some r.2 })

/-- The half-open note windows `[current_time, current_time + duration * step_duration)`
walked by `Sequencer.process`, in step order. -/
def stepWindows (step_duration : ℝ) : List (ℝ × ℝ) → ℝ → List (ℝ × ℝ)
  | [], _ => []
  | (_, duration) :: rest, current_time =>
    (current_time, current_time + duration * step_duration) ::
      stepWindows step_duration rest (current_time + duration * step_duration)

/-- The frequency of the last step in sequence order whose half-open window
contains at least one point of the time array (`none` when no window does). -/
def lastIntersectFreq (step_duration : ℝ) (t : List ℝ) :
    List (ℝ × ℝ) → ℝ → Option ℝ
  | [], _ => none
  | (frequency, duration) :: rest, current_time =>
    let note_end := current_time + duration * step_duration
    let here : Option ℝ :=
      if (t.filter fun x => decide (current_time ≤ x ∧ x < note_end)).isEmpty then
        none
      else
        some frequency
    match lastIntersectFreq step_duration t rest note_end with
    | some f => some f
    | none => here

/-- Applying the retuning described by `lastIntersectFreq` to a target:
unchanged for `none`, retuned to `f` for `some f`. -/
def applyLastFreq (tg : TargetModule) : Option ℝ → TargetModule
  | none => tg
  | some f => tg.setSequenceFrequency f

end Bleeps

namespace Bleeps

/-- C1: with no frequency or amplitude modulation connected,
`SineOscillator.process` uses the literal default modulation value `1.0`, so
the effective frequency is `base_frequency * (1 + 1) = 2 * base_frequency`;
concretely `Sine(frequency=440, amplitude=1.0)` yields sample `0.0` at
`t = 0` and sample `1.0` at `t = 1 / (4 * 880)`. -/
theorem sine_default_modulation_doubles_frequency :
    (∀ f a t : ℝ,
      SineOscillator.sample ⟨f, a, none, none⟩ t =
        a * Real.sin (2 * Real.pi * (f * 2) * t)) ∧
    SineOscillator.process ⟨440, 1, none, none⟩ [0, 1 / (4 * 880)] = [0, 1] := by
  constructor
  · intro f a t
    show a * 1 * Real.sin (2 * Real.pi * (f * (1 + 1)) * t) = _
    norm_num
  · show [(1 : ℝ) * 1 * Real.sin (2 * Real.pi * (440 * (1 + 1)) * 0),
      (1 : ℝ) * 1 * Real.sin (2 * Real.pi * (440 * (1 + 1)) * (1 / (4 * 880)))] = [0, 1]
    have h : 2 * Real.pi * (440 * (1 + 1)) * (1 / (4 * 880)) = Real.pi / 2 := by
      ring
    rw [h]
    norm_num [Real.sin_pi_div_two]

/-- The single `2 * N`-frame time array starting at cursor `0` is exactly the
first callback's `N`-frame time array followed by the second callback's,
whose cursor has been advanced by `N / sample_rate`. -/
theorem callbackTimeArray_split (N : ℕ) (sr : ℝ) :
    callbackTimeArray 0 (2 * N) sr =
      callbackTimeArray 0 N sr ++ callbackTimeArray (advanceCursor 0 N sr) N sr := by
  unfold callbackTimeArray advanceCursor
  rw [two_mul, List.range_add, List.map_append, List.map_map]
  congr 1
  apply List.map_congr_left
  intro i _
  show ((N + i : ℕ) : ℝ) / sr + 0 = (i : ℝ) / sr + (0 + (N : ℝ) / sr)
  push_cast
  ring

/-- C4: for every stateless oscillator (any sine, square or triangle
oscillator), two consecutive streaming callbacks of `N` frames each — the
second one using the cursor advanced by `N / sample_rate` — produce a
concatenated sample sequence equal to one `process` call over a single
`2 * N`-frame time array starting at `0` (exactly, in the real-number
model). -/
theorem streaming_phase_continuity (s : SineOscillator) (q : SquareOscillator)
    (r : TriangleOscillator) (N : ℕ) (sr : ℝ) :
    (s.process (callbackTimeArray 0 N sr) ++
        s.process (callbackTimeArray (advanceCursor 0 N sr) N sr) =
      s.process (callbackTimeArray 0 (2 * N) sr)) ∧
    (q.process (callbackTimeArray 0 N sr) ++
        q.process (callbackTimeArray (advanceCursor 0 N sr) N sr) =
      q.process (callbackTimeArray 0 (2 * N) sr)) ∧
    (r.process (callbackTimeArray 0 N sr) ++
        r.process (callbackTimeArray (advanceCursor 0 N sr) N sr) =
      r.process (callbackTimeArray 0 (2 * N) sr)) := by
  refine ⟨?_, ?_, ?_⟩
  · unfold SineOscillator.process
    rw [callbackTimeArray_split, List.map_append]
  · unfold SquareOscillator.process
    rw [callbackTimeArray_split, List.map_append]
  · unfold TriangleOscillator.process
    rw [callbackTimeArray_split, List.map_append]

/-- C7: for oscillators with no modulation connections, two successive calls
to `process` on the same fixed time array return identical outputs — the
`process` methods perform no state mutation, so the second call starts from
the unchanged oscillator. -/
theorem oscillator_determinism (s : SineOscillator) (q : SquareOscillator)
    (r : TriangleOscillator) (t : List ℝ)
    (hs1 : s.freq_mod_input = none) (hs2 : s.amp_mod_input = none)
    (hq1 : q.freq_mod_input = none) (hq2 : q.amp_mod_input = none)
    (hq3 : q.duty_mod_input = none)
    (hr1 : r.freq_mod_input = none) (hr2 : r.amp_mod_input = none) :
    (runTwice SineOscillator.stepCall s t).1 = (runTwice SineOscillator.stepCall s t).2 ∧
    (runTwice SquareOscillator.stepCall q t).1 = (runTwice SquareOscillator.stepCall q t).2 ∧
    (runTwice TriangleOscillator.stepCall r t).1 = (runTwice TriangleOscillator.stepCall r t).2 := by
  refine ⟨rfl, rfl, rfl⟩

/-- Witness for C7 at a concrete unmodulated oscillator of each kind. -/
theorem oscillator_determinism_witness :
    (runTwice SineOscillator.stepCall ⟨440, 1, none, none⟩ [0, 0.1]).1 =
      (runTwice SineOscillator.stepCall ⟨440, 1, none, none⟩ [0, 0.1]).2 ∧
    (runTwice SquareOscillator.stepCall ⟨440, 1, 0.5, none, none, none⟩ [0, 0.1]).1 =
      (runTwice SquareOscillator.stepCall ⟨440, 1, 0.5, none, none, none⟩ [0, 0.1]).2 ∧
    (runTwice TriangleOscillator.stepCall ⟨440, 1, none, none⟩ [0, 0.1]).1 =
      (runTwice TriangleOscillator.stepCall ⟨440, 1, none, none⟩ [0, 0.1]).2 :=
  oscillator_determinism ⟨440, 1, none, none⟩ ⟨440, 1, 0.5, none, none, none⟩
    ⟨440, 1, none, none⟩ [0, 0.1] rfl rfl rfl rfl rfl rfl rfl

/-- C8: calling `AudioOutput.start` with no root module attached reports the
configuration error (`ValueError("No input module connected")`) synchronously
for every duration argument; the error is produced before either the
streaming branch or the bounded-render branch touches the device. -/
theorem audio_output_start_requires_input (sr : ℕ) (duration : ℝ) :
    AudioOutput.start ⟨sr, none⟩ duration =
      Except.error "No input module connected" := rfl

/-- Dividing every sample by a positive constant divides the peak absolute
value by that constant. -/
theorem peakAbs_map_div (l : List ℝ) (m : ℝ) (hm : 0 < m) :
    peakAbs (l.map fun x => x / m) = peakAbs l / m := by
  induction l with
  | nil => show (0 : ℝ) = 0 / m; rw [zero_div]
  | cons x xs ih =>
    show max |x / m| (peakAbs (xs.map fun y => y / m)) = max |x| (peakAbs xs) / m
    rw [ih, abs_div, abs_of_pos hm, max_div_div_right hm.le]

/-- C2 evidence: `Filter.process` keeps no recursion state between calls.  The
filter object has no previous-sample fields at all; every call reinitialises
the recurrence with `filtered[0] = input[0]`, so the first output sample of
any call — in particular of the second of two adjacent calls — equals that
call's own first input sample, for every filter kind.  Concretely, a lowpass
block `[1]` processed after a block that ended at output `0` yields `1`
where the persistent recurrence would yield `alpha * 1 + (1 - alpha) * 0 < 1`. -/
theorem filter_recursion_state_reset :
    (∀ (f : Filter) (m : List ℝ → List ℝ) (t : List ℝ) (x : ℝ) (xs : List ℝ),
      f.input_module = some m → m t = x :: xs →
      (f.process t).head? = some x) ∧
    filterCore FilterType.LOWPASS 1000 44100 [1] = [1] ∧
    filterAlpha 1000 44100 * 1 + (1 - filterAlpha 1000 44100) * 0 < 1 := by
  refine ⟨?_, rfl, ?_⟩
  · intro f m t x xs hin hblock
    unfold Filter.process
    rw [hin]
    show (filterCore f.filter_type f.cutoff_freq f.sample_rate (m t)).head? = some x
    rw [hblock]
    cases hft : f.filter_type <;> rfl
  · have hc : (0 : ℝ) < 1 / (2 * Real.pi * 1000) := by positivity
    have : filterAlpha 1000 44100 < 1 := by
      unfold filterAlpha
      rw [div_lt_one (by positivity)]
      exact lt_add_of_pos_left _ hc
    linarith

/-- Witness for C2's evidence theorem: a concrete lowpass filter whose input
block is `[1]` returns `[1]`, its own first input, as the first output. -/
theorem filter_recursion_state_reset_witness :
    (Filter.process ⟨FilterType.LOWPASS, 1000, some fun _ => [1], 1, 44100⟩ [0]).head? =
      some 1 :=
  filter_recursion_state_reset.1 _ (fun _ => [1]) [0] 1 [] rfl rfl

/-- C6 evidence: a `Filter` with `filter_type = BANDPASS` and a connected
input raises nothing; `process` silently returns the block's first input
sample followed by zeros (the `np.zeros_like` initialisation untouched by any
recurrence), here `[1, 0, 0]` for input `[1, 1, 1]`. -/
theorem bandpass_silently_returns_near_zero :
    Filter.process ⟨FilterType.BANDPASS, 1000, some fun _ => [1, 1, 1], 1, 44100⟩
      [0, 0.1, 0.2] = [1, 0, 0] := rfl

/-- C5: with at least one input, `Mixer.process` returns the gain-weighted sum
of its inputs' outputs unchanged when the block's peak absolute value is at
most `1.0`; when the peak exceeds `1.0` it returns the sum divided elementwise
by that peak, so the result's peak equals exactly `1.0` and the result is a
uniform positive scaling of the pre-normalisation sum. -/
theorem mixer_peak_normalization (M : Mixer) (t : List ℝ)
    (h1 : M.input_modules ≠ []) (h2 : t ≠ []) :
    (peakAbs (mixSum M.input_modules t) ≤ 1 →
      M.process t = mixSum M.input_modules t) ∧
    (1 < peakAbs (mixSum M.input_modules t) →
      M.process t =
        (mixSum M.input_modules t).map
          (fun x => x / peakAbs (mixSum M.input_modules t)) ∧
      peakAbs (M.process t) = 1 ∧
      ∃ c : ℝ, 0 < c ∧
        M.process t = (mixSum M.input_modules t).map fun x => c * x) := by
  obtain ⟨ms⟩ := M
  cases ms with
  | nil => exact absurd rfl h1
  | cons a l =>
    constructor
    · intro hle
      show (if 1 < peakAbs (mixSum (a :: l) t) then
          (mixSum (a :: l) t).map (fun x => x / peakAbs (mixSum (a :: l) t))
        else mixSum (a :: l) t) = _
      rw [if_neg (not_lt.mpr hle)]
    · intro hgt
      have hpos : 0 < peakAbs (mixSum (a :: l) t) := lt_trans one_pos hgt
      have hproc : Mixer.process ⟨a :: l⟩ t =
          (mixSum (a :: l) t).map fun x => x / peakAbs (mixSum (a :: l) t) := by
        show (if 1 < peakAbs (mixSum (a :: l) t) then
            (mixSum (a :: l) t).map (fun x => x / peakAbs (mixSum (a :: l) t))
          else mixSum (a :: l) t) = _
        rw [if_pos hgt]
      refine ⟨hproc, ?_, (peakAbs (mixSum (a :: l) t))⁻¹, inv_pos.mpr hpos, ?_⟩
      · rw [hproc, peakAbs_map_div _ _ hpos, div_self (ne_of_gt hpos)]
      · rw [hproc]
        apply List.map_congr_left
        intro x _
        rw [div_eq_inv_mul]

/-- Witness for C5: one constant module of output `2` at gain `1` exceeds the
peak threshold, the mix is divided by its peak `2`, and the result `[1]` has
peak exactly `1`; a constant module of output `0.5` stays below the threshold
and the mix is returned unchanged. -/
theorem mixer_peak_normalization_witness :
    Mixer.process ⟨[(ChildModule.other fun l => l.map fun _ => 2, 1)]⟩ [0] =
      (mixSum [(ChildModule.other fun l => l.map fun _ => 2, 1)] [0]).map
        (fun x => x / peakAbs (mixSum [(ChildModule.other fun l => l.map fun _ => 2, 1)] [0])) ∧
    peakAbs (Mixer.process ⟨[(ChildModule.other fun l => l.map fun _ => 2, 1)]⟩ [0]) = 1 ∧
    Mixer.process ⟨[(ChildModule.other fun l => l.map fun _ => 0.5, 1)]⟩ [0] =
      mixSum [(ChildModule.other fun l => l.map fun _ => 0.5, 1)] [0] := by
  have hsum : mixSum [(ChildModule.other fun l => l.map fun _ => 2, 1)] [0] =
      [0 + 1 * 2] := rfl
  have hgt : 1 < peakAbs (mixSum [(ChildModule.other fun l => l.map fun _ => 2, 1)] [0]) := by
    rw [hsum]
    show (1 : ℝ) < max |0 + 1 * 2| 0
    rw [show |(0 : ℝ) + 1 * 2| = 2 by norm_num [abs_of_nonneg]]
    norm_num
  have h := (mixer_peak_normalization ⟨[(ChildModule.other fun l => l.map fun _ => 2, 1)]⟩ [0]
    (by simp) (by simp)).2 hgt
  refine ⟨h.1, h.2.1, ?_⟩
  have hsum2 : mixSum [(ChildModule.other fun l => l.map fun _ => 0.5, 1)] [0] =
      [0 + 1 * 0.5] := rfl
  have hle : peakAbs (mixSum [(ChildModule.other fun l => l.map fun _ => 0.5, 1)] [0]) ≤ 1 := by
    rw [hsum2]
    show max |(0 : ℝ) + 1 * 0.5| 0 ≤ 1
    rw [show |(0 : ℝ) + 1 * 0.5| = 0.5 by norm_num [abs_of_nonneg]]
    norm_num
  exact (mixer_peak_normalization ⟨[(ChildModule.other fun l => l.map fun _ => 0.5, 1)]⟩ [0]
    (by simp) (by simp)).1 hle

/-- C9: the stored `duty_cycle` of a `SquareOscillator` is clamped into
`[0, 1]` by the constructor, `process` leaves it unchanged, and the effective
per-sample duty (stored value plus duty modulation) is clamped into `[0, 1]`
by `np.clip` inside `process`. -/
theorem square_duty_cycle_clamped :
    (∀ f a d : ℝ, 0 ≤ (SquareOscillator.init f a d).duty_cycle ∧
      (SquareOscillator.init f a d).duty_cycle ≤ 1) ∧
    (∀ (q : SquareOscillator) (t : List ℝ),
      (q.stepCall t).2.duty_cycle = q.duty_cycle) ∧
    (∀ (q : SquareOscillator) (t : ℝ),
      0 ≤ q.effectiveDuty t ∧ q.effectiveDuty t ≤ 1) := by
  refine ⟨fun f a d => ⟨?_, ?_⟩, fun q t => rfl, fun q t => ⟨?_, ?_⟩⟩
  · exact le_max_left _ _
  · show max 0 (min 1 d) ≤ 1
    rw [max_le_iff]
    exact ⟨by norm_num, min_le_left _ _⟩
  · exact le_min (by norm_num) (le_max_left _ _)
  · exact min_le_left _ _

/-- Scattering values into a window never changes the block length. -/
theorem scatterWindow_length : ∀ (out tl : List ℝ) (lo hi : ℝ) (vals : List ℝ),
    (scatterWindow out tl lo hi vals).length = out.length := by
  intro out
  induction out with
  | nil => intro tl lo hi vals; rfl
  | cons o os ih =>
    intro tl lo hi vals
    cases tl with
    | nil => rfl
    | cons x xs =>
      simp only [scatterWindow]
      by_cases hw : lo ≤ x ∧ x < hi
      · rw [if_pos hw]
        simp [ih]
      · rw [if_neg hw]
        simp [ih]

/-- A position whose time point lies outside the window keeps its old value
under scattering. -/
theorem scatterWindow_getElem?_outside (lo hi : ℝ) :
    ∀ (out tl vals : List ℝ) (i : ℕ) (x : ℝ),
      tl[i]? = some x → ¬(lo ≤ x ∧ x < hi) →
      (scatterWindow out tl lo hi vals)[i]? = out[i]? := by
  intro out
  induction out with
  | nil => intro tl vals i x hx hout; rfl
  | cons o os ih =>
    intro tl vals i x hx hout
    cases tl with
    | nil => simp at hx
    | cons x' xs =>
      cases i with
      | zero =>
        rw [List.getElem?_cons_zero] at hx
        injection hx with hx'
        subst hx'
        simp only [scatterWindow]
        rw [if_neg hout, List.getElem?_cons_zero, List.getElem?_cons_zero]
      | succ i =>
        rw [List.getElem?_cons_succ] at hx
        simp only [scatterWindow]
        by_cases hw : lo ≤ x' ∧ x' < hi
        · rw [if_pos hw, List.getElem?_cons_succ, List.getElem?_cons_succ]
          exact ih xs vals.tail i x hx hout
        · rw [if_neg hw, List.getElem?_cons_succ, List.getElem?_cons_succ]
          exact ih xs vals i x hx hout

/-- Zipping a mapped copy of a list with the list itself is a single map. -/
theorem zipWith_map_left_self (f : ℝ → ℝ → ℝ) (g : ℝ → ℝ) :
    ∀ l : List ℝ, List.zipWith f (l.map g) l = l.map fun x => f (g x) x := by
  intro l
  induction l with
  | nil => rfl
  | cons x xs ih => simp only [List.map_cons, List.zipWith_cons_cons, ih]

/-- When the scattered values are exactly `g` mapped over the in-window time
points, a position whose time point lies in the window receives `g` of that
time point. -/
theorem scatterWindow_getElem?_filter_map (lo hi : ℝ) (g : ℝ → ℝ) :
    ∀ (tl out : List ℝ), out.length = tl.length →
    ∀ (i : ℕ) (x : ℝ), tl[i]? = some x → lo ≤ x ∧ x < hi →
      (scatterWindow out tl lo hi
        ((tl.filter fun y => decide (lo ≤ y ∧ y < hi)).map g))[i]? = some (g x) := by
  intro tl
  induction tl with
  | nil =>
    intro out hlen i x hx hw
    simp at hx
  | cons x' xs ih =>
    intro out hlen i x hx hw
    cases out with
    | nil => simp at hlen
    | cons o os =>
      have hlen' : os.length = xs.length := by simpa using hlen
      by_cases hw' : lo ≤ x' ∧ x' < hi
      · rw [List.filter_cons_of_pos (by simpa using hw'), List.map_cons]
        cases i with
        | zero =>
          rw [List.getElem?_cons_zero] at hx
          injection hx with hx'
          subst hx'
          simp only [scatterWindow]
          rw [if_pos hw', List.getElem?_cons_zero]
          rfl
        | succ i =>
          rw [List.getElem?_cons_succ] at hx
          simp only [scatterWindow]
          rw [if_pos hw', List.getElem?_cons_succ]
          exact ih os hlen' i x hx hw
      · rw [List.filter_cons_of_neg (by simpa using hw')]
        cases i with
        | zero =>
          rw [List.getElem?_cons_zero] at hx
          injection hx with hx'
          subst hx'
          exact absurd hw hw'
        | succ i =>
          rw [List.getElem?_cons_succ] at hx
          simp only [scatterWindow]
          rw [if_neg hw', List.getElem?_cons_succ]
          exact ih os hlen' i x hx hw

/-- A position whose time point lies in no remaining note window keeps the
zero it starts with through the whole per-note loop. -/
theorem seqLoop_outside_zero (sd : ℝ) (t : List ℝ) :
    ∀ (steps : List (ℝ × ℝ)) (ct : ℝ) (target : TargetModule) (out : List ℝ)
      (i : ℕ) (x : ℝ),
      t[i]? = some x → out[i]? = some 0 →
      (∀ w ∈ stepWindows sd steps ct, ¬(w.1 ≤ x ∧ x < w.2)) →
      (seqLoop sd t steps ct target out).1[i]? = some 0 := by
  intro steps
  induction steps with
  | nil => intro ct target out i x hx hout hw; exact hout
  | cons step rest ih =>
    obtain ⟨f, d⟩ := step
    intro ct target out i x hx hout hw
    have hhead : ¬(ct ≤ x ∧ x < ct + d * sd) := by
      refine hw (ct, ct + d * sd) ?_
      simp [stepWindows]
    have hrest : ∀ w ∈ stepWindows sd rest (ct + d * sd), ¬(w.1 ≤ x ∧ x < w.2) := by
      intro w hwmem
      exact hw w (by simp [stepWindows, hwmem])
    simp only [seqLoop]
    by_cases hsub : (t.filter fun y => decide (ct ≤ y ∧ y < ct + d * sd)).isEmpty = true
    · rw [if_pos hsub]
      exact ih (ct + d * sd) target out i x hx hout hrest
    · rw [if_neg hsub]
      refine ih (ct + d * sd) _ _ i x hx ?_ hrest
      rw [scatterWindow_getElem?_outside ct (ct + d * sd) out t _ i x hx hhead]
      exact hout

/-- One step of the per-note loop with a sine-oscillator target: the loop
continues on the remaining steps with `current_time` advanced, a target whose
non-frequency fields are unchanged, and an output block in which exactly the
in-window positions now hold the retuned, enveloped sine samples. -/
theorem seqLoop_sine_cons (sd : ℝ) (t : List ℝ) (rest : List (ℝ × ℝ))
    (f d ct : ℝ) (o : SineOscillator) (out : List ℝ) (hlen : out.length = t.length) :
    ∃ (o' : SineOscillator) (out' : List ℝ),
      seqLoop sd t ((f, d) :: rest) ct (TargetModule.sine o) out =
        seqLoop sd t rest (ct + d * sd) (TargetModule.sine o') out' ∧
      out'.length = t.length ∧
      o'.base_amplitude = o.base_amplitude ∧
      o'.freq_mod_input = o.freq_mod_input ∧
      o'.amp_mod_input = o.amp_mod_input ∧
      ∀ (i : ℕ) (x : ℝ), t[i]? = some x →
        out'[i]? = if ct ≤ x ∧ x < ct + d * sd then
            some (SineOscillator.sample { o with base_frequency := f } x *
              Real.exp (-(x - ct) / 0.1))
          else out[i]? := by
  by_cases hsub : (t.filter fun y => decide (ct ≤ y ∧ y < ct + d * sd)).isEmpty = true
  · refine ⟨o, out, ?_, hlen, rfl, rfl, rfl, ?_⟩
    · simp only [seqLoop]
      rw [if_pos hsub]
    · intro i x hx
      rw [if_neg ?_]
      intro hw
      have hmem : x ∈ t.filter fun y => decide (ct ≤ y ∧ y < ct + d * sd) :=
        List.mem_filter.mpr ⟨List.getElem?_mem hx, by simpa using hw⟩
      rw [List.isEmpty_iff] at hsub
      rw [hsub] at hmem
      exact absurd hmem (List.not_mem_nil x)
  · have henv : List.zipWith (fun v y => v * Real.exp (-(y - ct) / 0.1))
        (TargetModule.process
          (TargetModule.setSequenceFrequency (TargetModule.sine o) f)
          (t.filter fun y => decide (ct ≤ y ∧ y < ct + d * sd)))
        (t.filter fun y => decide (ct ≤ y ∧ y < ct + d * sd)) =
        (t.filter fun y => decide (ct ≤ y ∧ y < ct + d * sd)).map
          fun y => SineOscillator.sample { o with base_frequency := f } y *
            Real.exp (-(y - ct) / 0.1) := by
      exact zipWith_map_left_self _ _ _
    refine ⟨{ o with base_frequency := f },
      scatterWindow out t ct (ct + d * sd)
        ((t.filter fun y => decide (ct ≤ y ∧ y < ct + d * sd)).map
          fun y => SineOscillator.sample { o with base_frequency := f } y *
            Real.exp (-(y - ct) / 0.1)), ?_, ?_, rfl, rfl, rfl, ?_⟩
    · simp only [seqLoop]
      rw [if_neg hsub, henv]
      rfl
    · rw [scatterWindow_length]
      exact hlen
    · intro i x hx
      by_cases hw : ct ≤ x ∧ x < ct + d * sd
      · rw [if_pos hw]
        exact scatterWindow_getElem?_filter_map ct (ct + d * sd) _ t out hlen i x hx hw
      · rw [if_neg hw]
        exact scatterWindow_getElem?_outside ct (ct + d * sd) out t _ i x hx hw

/-- Retuning a child module twice keeps only the second frequency. -/
theorem childModule_setBaseFrequency_overwrite (c : ChildModule) (f1 f2 : ℝ) :
    (c.setBaseFrequency f1).setBaseFrequency f2 = c.setBaseFrequency f2 := by
  cases c <;> rfl

/-- Retuning a sequencer target twice keeps only the second frequency. -/
theorem targetModule_setSequenceFrequency_overwrite (tg : TargetModule) (f1 f2 : ℝ) :
    (tg.setSequenceFrequency f1).setSequenceFrequency f2 =
      tg.setSequenceFrequency f2 := by
  cases tg with
  | mixer m =>
    show TargetModule.mixer _ = TargetModule.mixer _
    rw [TargetModule.mixer.injEq]
    show (⟨(m.input_modules.map fun mg => (mg.1.setBaseFrequency f1, mg.2)).map
      fun mg => (mg.1.setBaseFrequency f2, mg.2)⟩ : Mixer) = _
    rw [Mixer.mk.injEq, List.map_map]
    apply List.map_congr_left
    intro mg _
    show ((mg.1.setBaseFrequency f1).setBaseFrequency f2, mg.2) = _
    rw [childModule_setBaseFrequency_overwrite]
  | sine o => rfl
  | square o => rfl
  | triangle o => rfl
  | other p => rfl

/-- The target returned by the per-note loop: unchanged when no remaining
window meets the time array, else retuned to the last intersecting step's
frequency. -/
theorem seqLoop_target_char (sd : ℝ) (t : List ℝ) :
    ∀ (steps : List (ℝ × ℝ)) (ct : ℝ) (target : TargetModule) (out : List ℝ),
      (seqLoop sd t steps ct target out).2 =
        match lastIntersectFreq sd t steps ct with
        | none => target
        | some f => target.setSequenceFrequency f := by
  intro steps
  induction steps with
  | nil => intro ct target out; rfl
  | cons step rest ih =>
    obtain ⟨f, d⟩ := step
    intro ct target out
    simp only [seqLoop, lastIntersectFreq]
    by_cases hsub : (t.filter fun y => decide (ct ≤ y ∧ y < ct + d * sd)).isEmpty = true
    · simp only [if_pos hsub]
      rw [ih (ct + d * sd) target out]
      cases lastIntersectFreq sd t rest (ct + d * sd) with
      | none => rfl
      | some g => rfl
    · simp only [if_neg hsub]
      rw [ih (ct + d * sd) (target.setSequenceFrequency f) _]
      cases lastIntersectFreq sd t rest (ct + d * sd) with
      | none => rfl
      | some g => exact targetModule_setSequenceFrequency_overwrite target f g

/-- C3: `Sequencer.process` with no target returns all zeros and leaves the
sequencer unchanged; with a target attached, every output position whose time
point lies outside all half-open note windows is zero; and at 120 BPM with
two 1-beat notes of frequencies `f1` then `f2` driving a sine target, the
output at a time point `x` is the target's sample retuned to `f1` (enveloped
from note start `0`) for `x ∈ [0, 0.5)`, retuned to `f2` (enveloped from note
start `0.5`) for `x ∈ [0.5, 1)`, and `0` otherwise. -/
theorem sequencer_note_boundaries :
    (∀ (s : Sequencer) (t : List ℝ), s.output_module = none →
      (s.process t).1 = List.replicate t.length 0 ∧ (s.process t).2 = s) ∧
    (∀ (s : Sequencer) (tg : TargetModule) (t : List ℝ) (i : ℕ) (x : ℝ),
      s.output_module = some tg → t[i]? = some x →
      (∀ w ∈ stepWindows s.step_duration s.sequence 0, ¬(w.1 ≤ x ∧ x < w.2)) →
      (s.process t).1[i]? = some 0) ∧
    (∀ (f1 f2 : ℝ) (o : SineOscillator) (t : List ℝ) (i : ℕ) (x : ℝ),
      t[i]? = some x →
      ({ Sequencer.init 120 with
          sequence := [(f1, 1), (f2, 1)],
          output_module := some (TargetModule.sine o) }.process t).1[i]? =
        if 0 ≤ x ∧ x < 0.5 then
          some (SineOscillator.sample { o with base_frequency := f1 } x *
            Real.exp (-(x - 0) / 0.1))
        else if 0.5 ≤ x ∧ x < 1 then
          some (SineOscillator.sample { o with base_frequency := f2 } x *
            Real.exp (-(x - 0.5) / 0.1))
        else some 0) := by
  refine ⟨?_, ?_, ?_⟩
  · intro s t hom
    unfold Sequencer.process
    rw [hom]
    exact ⟨rfl, rfl⟩
  · intro s tg t i x hom hx hw
    have hzero : (List.replicate t.length (0 : ℝ))[i]? = some 0 := by
      obtain ⟨hilt, -⟩ := List.getElem?_eq_some.mp hx
      rw [List.getElem?_replicate, if_pos hilt]
    unfold Sequencer.process
    rw [hom]
    exact seqLoop_outside_zero s.step_duration t s.sequence 0 tg _ i x hx hzero hw
  · intro f1 f2 o t i x hx
    have hzero : (List.replicate t.length (0 : ℝ))[i]? = some 0 := by
      obtain ⟨hilt, -⟩ := List.getElem?_eq_some.mp hx
      rw [List.getElem?_replicate, if_pos hilt]
    show (seqLoop (60 / 120) t [(f1, 1), (f2, 1)] 0 (TargetModule.sine o)
      (List.replicate t.length 0)).1[i]? = _
    obtain ⟨o1, out1, heq1, hlen1, hamp1, hfm1, ham1, hch1⟩ :=
      seqLoop_sine_cons (60 / 120) t [(f2, 1)] f1 1 0 o (List.replicate t.length 0)
        (by simp)
    rw [heq1]
    obtain ⟨o2, out2, heq2, hlen2, hamp2, hfm2, ham2, hch2⟩ :=
      seqLoop_sine_cons (60 / 120) t [] f2 1 (0 + 1 * (60 / 120)) o1 out1 hlen1
    rw [heq2]
    show out2[i]? = _
    have hoo : ({ o1 with base_frequency := f2 } : SineOscillator) =
        { o with base_frequency := f2 } := by
      cases o1
      cases o
      simp only at hamp1 hfm1 ham1
      simp [hamp1, hfm1, ham1]
    rw [hch2 i x hx, hoo, hch1 i x hx, hzero]
    have e1 : (0 : ℝ) + 1 * (60 / 120) = 0.5 := by norm_num
    rw [e1]
    have e2 : (0.5 : ℝ) + 1 * (60 / 120) = 1 := by norm_num
    rw [e2]
    by_cases h1 : 0 ≤ x ∧ x < 0.5
    · have h2 : ¬(0.5 ≤ x ∧ x < 1) := fun h => absurd h1.2 (not_lt.mpr h.1)
      simp only [if_pos h1, if_neg h2]
    · by_cases h2 : 0.5 ≤ x ∧ x < 1
      · simp only [if_pos h2, if_neg h1]
      · simp only [if_neg h1, if_neg h2]

/-- Witness for C3: with no target the output block over `[0]` is `[0]`; with
one 1-beat note at 120 BPM, the time point `2` lies outside every note window
so its output sample is `0`; and the concrete two-note sequencer at
frequencies `100` then `200` also yields `0` at time point `2`. -/
theorem sequencer_note_boundaries_witness :
    (Sequencer.process (Sequencer.init 120) [0]).1 = [0] ∧
    (Sequencer.process
      { Sequencer.init 120 with
          sequence := [(100, 1)],
          output_module := some (TargetModule.sine ⟨440, 1, none, none⟩) } [2]).1[0]? =
      some 0 ∧
    (Sequencer.process
      { Sequencer.init 120 with
          sequence := [(100, 1), (200, 1)],
          output_module := some (TargetModule.sine ⟨440, 1, none, none⟩) } [2]).1[0]? =
      some 0 := by
  refine ⟨?_, ?_, ?_⟩
  · exact (sequencer_note_boundaries.1 (Sequencer.init 120) [0] rfl).1
  · refine sequencer_note_boundaries.2.1 _ (TargetModule.sine ⟨440, 1, none, none⟩)
      [2] 0 2 rfl rfl ?_
    intro w hw
    simp only [stepWindows, List.mem_cons, List.not_mem_nil, or_false] at hw
    subst hw
    show ¬((0 : ℝ) ≤ 2 ∧ (2 : ℝ) < 0 + 1 * (60 / 120))
    norm_num
  · have h := sequencer_note_boundaries.2.2 100 200 ⟨440, 1, none, none⟩ [2] 0 2 rfl
    rw [h]
    norm_num

/-- C10: `Sequencer.process` leaves exactly this side effect on the attached
target: the returned sequencer carries the target retuned to the frequency of
the last step in sequence order whose half-open window intersected the time
array (unchanged when no window intersects, hence the whole sequencer is
returned unchanged then); retuning a sine-oscillator target overwrites only
`base_frequency`, and retuning a `Mixer` target retunes every oscillator
child while leaving `other` children and all gains unchanged. -/
theorem sequencer_frame_effect :
    (∀ (s : Sequencer) (tg : TargetModule) (t : List ℝ), s.output_module = some tg →
      (s.process t).2 = { s with output_module := some (applyLastFreq tg
        (lastIntersectFreq s.step_duration t s.sequence 0)) }) ∧
    (∀ (o : SineOscillator) (f : ℝ),
      (TargetModule.sine o).setSequenceFrequency f =
        TargetModule.sine { o with base_frequency := f }) ∧
    (∀ (m : Mixer) (f : ℝ),
      (TargetModule.mixer m).setSequenceFrequency f =
        TargetModule.mixer ⟨m.input_modules.map fun mg => (mg.1.setBaseFrequency f, mg.2)⟩) ∧
    (∀ (p : List ℝ → List ℝ) (f : ℝ),
      (TargetModule.other p).setSequenceFrequency f = TargetModule.other p) ∧
    (∀ (s : Sequencer) (tg : TargetModule) (t : List ℝ), s.output_module = some tg →
      lastIntersectFreq s.step_duration t s.sequence 0 = none →
      (s.process t).2 = s) := by
  have hmain : ∀ (s : Sequencer) (tg : TargetModule) (t : List ℝ),
      s.output_module = some tg →
      (s.process t).2 = { s with output_module := some (applyLastFreq tg
        (lastIntersectFreq s.step_duration t s.sequence 0)) } := by
    intro s tg t hom
    unfold Sequencer.process
    rw [hom]
    show { s with output_module := some (seqLoop s.step_duration t s.sequence 0 tg
      (List.replicate t.length 0)).2 } = _
    rw [seqLoop_target_char]
    rfl
  refine ⟨hmain, fun o f => rfl, fun m f => rfl, fun p f => rfl, ?_⟩
  intro s tg t hom hnone
  rw [hmain s tg t hom, hnone]
  obtain ⟨bpm, sd, sq, om⟩ := s
  simp only at hom
  rw [hom]
  rfl

/-- Witness for C10: a one-note sequencer processed over the empty time array
(no window intersected) and over `[5]` (time point beyond the only window)
returns its target, and itself, unchanged. -/
theorem sequencer_frame_effect_witness :
    (Sequencer.process
      { Sequencer.init 120 with
          sequence := [(100, 1)],
          output_module := some (TargetModule.sine ⟨440, 1, none, none⟩) } []).2 =
      { Sequencer.init 120 with
          sequence := [(100, 1)],
          output_module := some (TargetModule.sine ⟨440, 1, none, none⟩) } ∧
    (TargetModule.sine (⟨440, 1, none, none⟩ : SineOscillator)).setSequenceFrequency 100 =
      TargetModule.sine ⟨100, 1, none, none⟩ := by
  constructor
  · exact sequencer_frame_effect.2.2.2.2 _ (TargetModule.sine ⟨440, 1, none, none⟩) [] rfl rfl
  · exact sequencer_frame_effect.2.1 ⟨440, 1, none, none⟩ 100

end Bleeps
